import Mathlib

/-!
Verification of the byte_counter repository (src/counter.rs, src/id.rs,
src/timestamp.rs, src/generator.rs) against its natural-language spec.

Strings are modelled as lists of characters; all inputs of interest are
ASCII, for which Rust's byte-based `str::len` and slicing agree with the
character-based view used here.  Fallible Rust code (calls that can
`panic!`, e.g. `unwrap` on a failed parse or `clone_from_slice` with a
length mismatch) is modelled with `Option`: `none` means the process
aborts.  Machine integers are modelled as `Nat`; the widths involved
(u8 values below 256, u64 timestamps, u128 projections of at most
255^16 < 2^128) never overflow in the source computations, and parse
overflow is modelled by an explicit bound check exactly where the Rust
parser reports `PosOverflow`.
-/

/-- Decimal accumulation over characters: `dval a cs` folds the digits of
`cs` onto the accumulator `a`, matching the accumulation Rust's integer
`from_str` performs (each step multiplies by 10 and adds the digit value). -/
def dval : Nat → List Char → Nat
  | a, [] => a
  | a, c :: cs => dval (a * 10 + (c.toNat - 48)) cs

/-- Rust's integer `from_str` accepts a single optional leading `+` sign
before the digits; this removes it.  A `-` is not accepted for unsigned
types and is left in place (it then fails the digit check). -/
def stripPlus : List Char → List Char
  | [] => []
  | c :: rest => if c = '+' then rest else c :: rest

/-- Embeds Rust's `str::parse::<uN>()` for an unsigned integer type with
maximum value `maxVal`: an optional leading `+`, then one or more ASCII
digits, with the accumulated value within range; anything else is an
error (`none`).  Overflow during accumulation is equivalent to the final
value exceeding `maxVal`, since accumulation is monotone. -/
def parseNat? (maxVal : Nat) (cs : List Char) : Option Nat :=
  let body := stripPlus cs
  if body ≠ [] ∧ body.all Char.isDigit then
    if dval 0 body ≤ maxVal then some (dval 0 body) else none
  else none

/-- Maximum value of Rust's `u64`. -/
def U64MAX : Nat := 2 ^ 64 - 1

/-- Decimal rendering of a natural number, fuel-indexed so that the
definition is structural (and hence kernel-reducible); `natToChars`
supplies sufficient fuel.  Embeds Rust's `format!("{}", n)`. -/
def natToCharsAux : Nat → Nat → List Char → List Char
  | 0, _, acc => acc
  | fuel + 1, n, acc =>
    if n < 10 then Nat.digitChar n :: acc
    else natToCharsAux fuel (n / 10) (Nat.digitChar (n % 10) :: acc)

/-- Decimal rendering of a natural number (no sign, no leading zeros,
`0` renders as `"0"`), as produced by Rust's `format!("{}", n)`. -/
def natToChars (n : Nat) : List Char :=
  natToCharsAux (n + 1) n []

/-- Embeds `Timestamp` from src/timestamp.rs: a wrapper around a `u64`
count of whole seconds since the Unix epoch. -/
structure Timestamp where
  val : Nat
  deriving DecidableEq, Repr

/-- Embeds `From<&str> for Timestamp` (src/timestamp.rs lines 38-43):
`s.parse::<u64>().unwrap_or_else(|_| 0)`. -/
def timestampFrom (s : List Char) : Timestamp :=
  ⟨(parseNat? U64MAX s).getD 0⟩

/-- Embeds `ByteCounter::to_u128` / `BigID::to_u128` (src/counter.rs
lines 249-266, src/id.rs lines 161-177) on the reversed byte list
(the Rust code iterates `self.id.iter().rev()`): starting from
`result = 0`, stop at the first zero byte; the first nonzero byte is
assigned to `result`, every later nonzero byte is multiplied into it. -/
def toU128Aux : List Nat → Nat → Nat
  | [], acc => acc
  | b :: rest, acc =>
    if b = 0 then acc
    else if acc = 0 then toU128Aux rest b
    else toU128Aux rest (acc * b)

/-- Modelled from the spec: the positional base-256 value of a
big-endian byte list, byte₀·256^(W−1) + … + byte_{W−1}·256⁰, the
"numeric projection" semantics the spec's §4.1 prescribes.  Used to
compare the source's `to_u128` against the spec's words. -/
def positionalValue (id : List Nat) : Nat :=
  id.foldl (fun acc b => acc * 256 + b) 0

/-- Embeds the carry chain of `ByteCounter::next_id` (src/counter.rs
lines 211-228), acting on the reversed (least-significant-first) byte
list: a `0xFF` byte becomes `0` and the carry continues; the first
other byte is incremented and the chain stops. -/
def incBytesRev : List Nat → List Nat
  | [] => []
  | b :: rest => if b = 255 then 0 :: incBytesRev rest else (b + 1) :: rest

/-- Embeds the borrow chain of `ByteCounter::prev_id` (src/counter.rs
lines 230-247), acting on the reversed byte list: a `0` byte becomes
`0xFF` and the borrow continues; the first other byte is decremented
and the chain stops. -/
def decBytesRev : List Nat → List Nat
  | [] => []
  | b :: rest => if b = 0 then 255 :: decBytesRev rest else (b - 1) :: rest

/-- Embeds `pub const IDENTIFIER_SIZE` of src/counter.rs:
`mem::size_of::<u64>()` = 8 bytes. -/
def IDENTIFIER_SIZE : Nat := 8

/-- Embeds `pub const IDENTIFIER_SIZE` of src/id.rs:
`mem::size_of::<u128>()` = 16 bytes. -/
def BigID.IDENTIFIER_SIZE : Nat := 16

/-- Embeds `ByteCounter` (src/counter.rs lines 9-17).  Field order
matches the Rust declaration, which fixes the derived `Ord`:
`prefix`, `timestamp`, `id`, `valid`.  The Rust field `prefix`
(an `Option<String>`) is named `pre` here; `id` is the big-endian
byte array of length `IDENTIFIER_SIZE`. -/
structure ByteCounter where
  pre : Option (List Char)
  timestamp : Timestamp
  id : List Nat
  valid : Bool
  deriving DecidableEq, Repr

/-- Embeds `BigID` (src/id.rs lines 7-14): field order `id`, `prefix`
(named `pre`), `valid`; 16-byte big-endian `id`; no timestamp. -/
structure BigID where
  id : List Nat
  pre : Option (List Char)
  valid : Bool
  deriving DecidableEq, Repr

/-- Embeds `ByteCounter::to_u128`: the Rust loop over
`self.id.iter().rev()` described at `toU128Aux`. -/
def ByteCounter.to_u128 (c : ByteCounter) : Nat :=
  toU128Aux c.id.reverse 0

/-- Embeds `BigID::to_u128`: the identical loop in src/id.rs. -/
def BigID.to_u128 (c : BigID) : Nat :=
  toU128Aux c.id.reverse 0

/-- Embeds `ByteCounter::next_id`.  The timestamp of the result is
`Timestamp::new()`, i.e. the clock reading at call time, passed in
explicitly as `now`; `valid` is set to `true` and the prefix copied. -/
def ByteCounter.next_id (now : Nat) (c : ByteCounter) : ByteCounter :=
  ⟨c.pre, ⟨now⟩, (incBytesRev c.id.reverse).reverse, true⟩

/-- Embeds `ByteCounter::prev_id`, symmetric to `next_id`. -/
def ByteCounter.prev_id (now : Nat) (c : ByteCounter) : ByteCounter :=
  ⟨c.pre, ⟨now⟩, (decBytesRev c.id.reverse).reverse, true⟩

/-- Embeds `ByteCounter::distance` (src/counter.rs lines 268-277):
absolute difference of the two `to_u128` projections. -/
def ByteCounter.distance (a b : ByteCounter) : Nat :=
  let lhs := a.to_u128
  let rhs := b.to_u128
  if lhs < rhs then rhs - lhs else lhs - rhs

/-- Rust's `Ord` on unsigned integers (and on `char` via its scalar
value): three-way comparison. -/
def cmpNat (a b : Nat) : Ordering :=
  if a < b then .lt else if a = b then .eq else .gt

/-- Rust's `Ord` on `char`, by Unicode scalar value (which for `String`
coincides with the UTF-8 byte order Rust uses). -/
def cmpChar (a b : Char) : Ordering :=
  cmpNat a.toNat b.toNat

/-- Rust's derived lexicographic `Ord` on slices/arrays/`String`s of
equal or distinct length: elementwise, shorter-is-less on a tie. -/
def cmpList (cmp : α → α → Ordering) : List α → List α → Ordering
  | [], [] => .eq
  | [], _ :: _ => .lt
  | _ :: _, [] => .gt
  | a :: as, b :: bs =>
    match cmp a b with
    | .eq => cmpList cmp as bs
    | o => o

/-- Rust's derived `Ord` on `Option`: `None < Some _`. -/
def cmpOpt (cmp : α → α → Ordering) : Option α → Option α → Ordering
  | none, none => .eq
  | none, some _ => .lt
  | some _, none => .gt
  | some a, some b => cmp a b

/-- Rust's derived `Ord` on `bool`: `false < true`. -/
def cmpBool : Bool → Bool → Ordering
  | false, true => .lt
  | true, false => .gt
  | _, _ => .eq

/-- First-non-`eq` combination, as in a derived struct `Ord`. -/
def ordThen : Ordering → Ordering → Ordering
  | .eq, o => o
  | o, _ => o

/-- Embeds the `#[derive(Ord)]` comparison on `ByteCounter`
(src/counter.rs line 9): lexicographic over the fields in declaration
order `prefix`, `timestamp`, `id`, `valid`. -/
def ByteCounter.cmp (a b : ByteCounter) : Ordering :=
  ordThen (cmpOpt (cmpList cmpChar) a.pre b.pre)
    (ordThen (cmpNat a.timestamp.val b.timestamp.val)
      (ordThen (cmpList cmpNat a.id b.id)
        (cmpBool a.valid b.valid)))

/-- Embeds the segment rendering inside `ToString for ByteCounter` /
`ToString for BigID`: a byte below 10 is rendered `format!("00{}", b)`,
below 100 `format!("0{}", b)`, otherwise `format!("{}", b)` — i.e. a
zero-padded three-character decimal group. -/
def encodeByte (b : Nat) : List Char :=
  if b < 10 then '0' :: '0' :: natToChars b
  else if b < 100 then '0' :: natToChars b
  else natToChars b

/-- Embeds `ToString for ByteCounter` (src/counter.rs lines 110-138):
the concatenated groups, prefixed by `prefix:timestamp:` when a prefix
is present and by `timestamp:` otherwise. -/
def ByteCounter.to_string (c : ByteCounter) : List Char :=
  let seg := (c.id.map encodeByte).flatten
  match c.pre with
  | some p => p ++ ':' :: (natToChars c.timestamp.val ++ ':' :: seg)
  | none => natToChars c.timestamp.val ++ ':' :: seg

/-- Embeds `ToString for BigID` (src/id.rs lines 78-101): the segment,
prefixed by `prefix:` when a prefix is present. -/
def BigID.to_string (c : BigID) : List Char :=
  let seg := (c.id.map encodeByte).flatten
  match c.pre with
  | some p => p ++ ':' :: seg
  | none => seg

/-- Embeds Rust's `str::split(':')`: the list of parts between colons.
An empty string yields one empty part, `"a:b"` yields `["a", "b"]`,
`":"` yields two empty parts — exactly `split`'s semantics. -/
def splitCh : List Char → List (List Char)
  | [] => [[]]
  | c :: rest =>
    if c = ':' then [] :: splitCh rest
    else
      match splitCh rest with
      | p :: ps => (c :: p) :: ps
      | [] => [[c]]

/-- Three-character chunking, embedding
`.chars().collect::<Vec<char>>().chunks(3)`: full chunks of three, with
a final shorter chunk when the length is not a multiple of three. -/
def chunks3 : List Char → List (List Char)
  | [] => []
  | [a] => [[a]]
  | [a, b] => [[a, b]]
  | a :: b :: c :: rest => [a, b, c] :: chunks3 rest

/-- Embeds the alignment step of `decode_bytes` (src/counter.rs lines
58-76, src/id.rs lines 28-46) for width `w`: with
`byte_count = len / 3`, pad on the left with `(w - byte_count) * 3`
zero characters when `byte_count < w`, keep the string when equal,
and keep only the trailing `w * 3` characters when greater. -/
def alignW (w : Nat) (s : List Char) : List Char :=
  let byteCount := s.length / 3
  if byteCount < w then List.replicate ((w - byteCount) * 3) '0' ++ s
  else if byteCount = w then s
  else s.drop (s.length - w * 3)

/-- Option-valued map: embeds `.map(|c| ...parse::<u8>().unwrap())`,
where the first failing parse aborts the process (`none`). -/
def mapOpt (f : α → Option β) : List α → Option (List β)
  | [] => some []
  | a :: l =>
    match f a with
    | none => none
    | some b => (mapOpt f l).map (b :: ·)

/-- Embeds the body shared by `ByteCounter::decode_bytes` and
`BigID::decode_bytes` for width `w`: align, chunk into threes, parse
each chunk as a `u8` (`unwrap` ⇒ `none` on failure), then
`clone_from_slice` into a `w`-byte array, which panics (`none`) unless
exactly `w` bytes were produced. -/
def decodeGroups (w : Nat) (s : List Char) : Option (List Nat) :=
  (mapOpt (parseNat? 255) (chunks3 (alignW w s))).bind fun bytes =>
    if bytes.length = w then some bytes else none

/-- Embeds `ByteCounter::decode_bytes` (src/counter.rs lines 57-94):
on success the counter has no prefix, timestamp `Timestamp::new()`
(the clock reading `now`), and `valid = true`. -/
def ByteCounter.decode_bytes (now : Nat) (s : List Char) : Option ByteCounter :=
  (decodeGroups IDENTIFIER_SIZE s).map fun bytes => ⟨none, ⟨now⟩, bytes, true⟩

/-- Embeds `BigID::decode_bytes` (src/id.rs lines 27-63). -/
def BigID.decode_bytes (s : List Char) : Option BigID :=
  (decodeGroups BigID.IDENTIFIER_SIZE s).map fun bytes => ⟨bytes, none, true⟩

/-- Embeds `From<&String> for ByteCounter` (src/counter.rs lines
140-178): split on `:`; three parts give prefix, timestamp and segment;
two parts give timestamp and segment (in both cases `valid` is forced
to `false` when the parsed timestamp is 0); any other part count yields
the all-zero counter with `valid = false` and a fresh timestamp. -/
def ByteCounter.fromString (now : Nat) (s : List Char) : Option ByteCounter :=
  match splitCh s with
  | [p, t, i] =>
    (ByteCounter.decode_bytes now i).map fun obj =>
      let ts := timestampFrom t
      { obj with pre := some p, timestamp := ts,
                 valid := if ts.val = 0 then false else obj.valid }
  | [t, i] =>
    (ByteCounter.decode_bytes now i).map fun obj =>
      let ts := timestampFrom t
      { obj with timestamp := ts,
                 valid := if ts.val = 0 then false else obj.valid }
  | _ => some ⟨none, ⟨now⟩, List.replicate IDENTIFIER_SIZE 0, false⟩

/-- Embeds `From<&str> for BigID` (src/id.rs lines 103-126): two parts
give prefix and segment, one part is the bare segment, anything else
yields the all-zero invalid `BigID`. -/
def BigID.fromStr (s : List Char) : Option BigID :=
  match splitCh s with
  | [p, i] =>
    (BigID.decode_bytes i).map fun obj => { obj with pre := some p }
  | [i] => BigID.decode_bytes i
  | _ => some ⟨List.replicate BigID.IDENTIFIER_SIZE 0, none, false⟩

/-- Embeds `Generator` (src/generator.rs lines 3-7); the Rust field
`end` is named `stop` here. -/
structure Generator where
  current : ByteCounter
  stop : ByteCounter
  deriving DecidableEq, Repr

/-- Embeds `Iterator::next for Generator` (src/generator.rs lines
31-43): when `current < end` (derived `Ord`), return a copy of
`current` and advance it via `next_id`, else yield nothing.  The clock
reading used by `next_id` is passed as `now`. -/
def Generator.next (now : Nat) (g : Generator) : Option ByteCounter × Generator :=
  if g.current.cmp g.stop = .lt then
    (some g.current, { g with current := g.current.next_id now })
  else (none, g)

/-- Embeds `DoubleEndedIterator::next_back for Generator`
(src/generator.rs lines 45-55): when `current < end`, clone `end` as
the result first, then replace `end` with `end.prev_id()`; else yield
nothing. -/
def Generator.next_back (now : Nat) (g : Generator) : Option ByteCounter × Generator :=
  if g.current.cmp g.stop = .lt then
    (some g.stop, { g with stop := g.stop.prev_id now })
  else (none, g)

/-- Claim C1: the numeric projection `to_u128` is claimed to equal the
positional base-256 value of the byte array.  The source instead
multiplies the trailing nonzero bytes, stopping at the first zero byte
(scanning from the least-significant end): on bytes `[0,…,0,1,1]` both
`ByteCounter::to_u128` and `BigID::to_u128` return `1·1 = 1`, while the
positional value is `1·256 + 1 = 257`. -/
theorem c1_to_u128_not_positional :
    (ByteCounter.mk none ⟨0⟩ [0, 0, 0, 0, 0, 0, 1, 1] true).to_u128 = 1 ∧
    positionalValue [0, 0, 0, 0, 0, 0, 1, 1] = 257 ∧
    (BigID.mk [0, 0, 0, 0, 0, 0, 0, 0, 0, 0, 0, 0, 0, 0, 1, 1] none true).to_u128 = 1 ∧
    positionalValue [0, 0, 0, 0, 0, 0, 0, 0, 0, 0, 0, 0, 0, 0, 1, 1] = 257 := by
  decide

/-- Claim C2: with prefix, timestamp and valid flag all equal, the
derived structural ordering is claimed to agree with `to_u128`.  On
`a = [0,…,0,0,2]` and `b = [0,…,0,1,1]` the derived (lexicographic)
ordering has `a < b`, yet `to_u128 a = 2 > 1 = to_u128 b`, because
`to_u128` multiplies trailing nonzero bytes instead of computing the
positional value. -/
theorem c2_ordering_disagrees_with_to_u128 :
    ByteCounter.cmp ⟨none, ⟨0⟩, [0, 0, 0, 0, 0, 0, 0, 2], true⟩
        ⟨none, ⟨0⟩, [0, 0, 0, 0, 0, 0, 1, 1], true⟩ = .lt ∧
    (ByteCounter.mk none ⟨0⟩ [0, 0, 0, 0, 0, 0, 0, 2] true).to_u128 = 2 ∧
    (ByteCounter.mk none ⟨0⟩ [0, 0, 0, 0, 0, 0, 1, 1] true).to_u128 = 1 := by
  decide

/-- Claim C4: decoding the one-character segment `"1"` is claimed to
left-pad and succeed with numeric value 1.  The source pads with
`(W - len/3)·3 = 24` zero characters, producing a 25-character string,
25 characters chunk into 9 groups, and `clone_from_slice` panics on the
9-versus-8 length mismatch — modelled as `none`.  A segment `"001"`
whose length is a multiple of three does decode to value 1; `BigID`'s
copy of the code aborts on `"1"` the same way. -/
theorem c4_decode_of_one_char_segment_aborts :
    ByteCounter.decode_bytes 0 ['1'] = none ∧
    ByteCounter.decode_bytes 0 ['0', '0', '1'] =
      some ⟨none, ⟨0⟩, [0, 0, 0, 0, 0, 0, 0, 1], true⟩ ∧
    positionalValue [0, 0, 0, 0, 0, 0, 0, 1] = 1 ∧
    BigID.decode_bytes ['1'] = none := by
  decide

/-- Claim C5: `next_back` is claimed to decrement `end` first and
return the decremented value, never emitting the bound `end` itself.
On the range from the zero counter to the counter with byte value 1
(equal prefixes and timestamps), the source returns a copy of the old
`end` — the bound itself, bytes `[0,…,0,1]` — and only then stores the
decremented `end`; the returned value differs from the new
(decremented) `end` the claim requires.  `next` on the same state
returns `start`, confirming the half-open forward semantics the bound
emission contradicts. -/
theorem c5_next_back_returns_old_end :
    (Generator.next_back 0
        ⟨⟨none, ⟨0⟩, [0, 0, 0, 0, 0, 0, 0, 0], true⟩,
         ⟨none, ⟨0⟩, [0, 0, 0, 0, 0, 0, 0, 1], true⟩⟩).1 =
      some ⟨none, ⟨0⟩, [0, 0, 0, 0, 0, 0, 0, 1], true⟩ ∧
    (Generator.next_back 0
        ⟨⟨none, ⟨0⟩, [0, 0, 0, 0, 0, 0, 0, 0], true⟩,
         ⟨none, ⟨0⟩, [0, 0, 0, 0, 0, 0, 0, 1], true⟩⟩).2.stop =
      ByteCounter.prev_id 0 ⟨none, ⟨0⟩, [0, 0, 0, 0, 0, 0, 0, 1], true⟩ ∧
    (ByteCounter.prev_id 0 ⟨none, ⟨0⟩, [0, 0, 0, 0, 0, 0, 0, 1], true⟩).id =
      [0, 0, 0, 0, 0, 0, 0, 0] ∧
    (Generator.next 0
        ⟨⟨none, ⟨0⟩, [0, 0, 0, 0, 0, 0, 0, 0], true⟩,
         ⟨none, ⟨0⟩, [0, 0, 0, 0, 0, 0, 0, 1], true⟩⟩).1 =
      some ⟨none, ⟨0⟩, [0, 0, 0, 0, 0, 0, 0, 0], true⟩ := by
  decide

/-- Claim C6: `distance(c, c.increment())` is claimed to be 1 away from
the extremes.  On `c = [0,…,0,2,0]` (neither all-0xFF nor all-0x00) the
source gives `to_u128 c = 0` (the scan stops at the trailing zero byte)
and `to_u128 (c+1) = 1·2 = 2`, so the distance is 2; the distance to
`c.decrement()` (bytes `[0,…,0,1,255]`, projection `255·1`) is 255. -/
theorem c6_distance_of_increment_not_one :
    (ByteCounter.mk none ⟨0⟩ [0, 0, 0, 0, 0, 0, 2, 0] true).id ≠
      List.replicate 8 255 ∧
    (ByteCounter.mk none ⟨0⟩ [0, 0, 0, 0, 0, 0, 2, 0] true).id ≠
      List.replicate 8 0 ∧
    ByteCounter.distance ⟨none, ⟨0⟩, [0, 0, 0, 0, 0, 0, 2, 0], true⟩
      (ByteCounter.next_id 0 ⟨none, ⟨0⟩, [0, 0, 0, 0, 0, 0, 2, 0], true⟩) = 2 ∧
    ByteCounter.distance ⟨none, ⟨0⟩, [0, 0, 0, 0, 0, 0, 2, 0], true⟩
      (ByteCounter.prev_id 0 ⟨none, ⟨0⟩, [0, 0, 0, 0, 0, 0, 2, 0], true⟩) = 255 := by
  decide

/-- Claim C7 counterexample: the segment whose first group is `"+99"`
contains the non-digit character `+`, yet decoding does not abort:
Rust's `u8` parser accepts a single leading `+`, so the segment decodes
to bytes `[99,0,…,0]`. -/
theorem c7_counterexample :
    ByteCounter.decode_bytes 0
      ('+' :: '9' :: '9' :: List.replicate 21 '0') =
      some ⟨none, ⟨0⟩, [99, 0, 0, 0, 0, 0, 0, 0], true⟩ ∧
    Char.isDigit '+' = false := by
  decide

/-- Claim C9 counterexample: two counters agreeing on prefix, timestamp
and bytes but differing in `valid` are claimed equal and mutually
unordered; under the derived `Eq`/`Ord` (which include the `valid`
field, declared last) they are unequal and the `valid = false` one
orders strictly below the `valid = true` one. -/
theorem c9_counterexample :
    (ByteCounter.mk none ⟨0⟩ (List.replicate 8 0) true ≠
      ByteCounter.mk none ⟨0⟩ (List.replicate 8 0) false) ∧
    ByteCounter.cmp ⟨none, ⟨0⟩, List.replicate 8 0, false⟩
      ⟨none, ⟨0⟩, List.replicate 8 0, true⟩ = .lt := by
  decide

/-- Claim C10 counterexample: the two-part input `"00:<24 zeros>"` has
a timestamp field that is parseable as a u64 (value 0) and is not the
literal `"0"`, so the claim predicts `valid = true`; the source flags
`valid = false` because the parsed value is 0. -/
theorem c10_counterexample :
    ByteCounter.fromString 3 ('0' :: '0' :: ':' :: List.replicate 24 '0') =
      some ⟨none, ⟨0⟩, List.replicate 8 0, false⟩ ∧
    parseNat? U64MAX ['0', '0'] = some 0 ∧
    (['0', '0'] : List Char) ≠ ['0'] := by
  decide

/-- Claim C3 counterexample: a programmatically constructed counter
whose prefix is the single character `:` encodes to a text with four
`:`-separated parts, so decoding falls into the invalid branch and the
prefix (among the rest) is not preserved. -/
theorem c3_counterexample :
    ByteCounter.fromString 0
      (ByteCounter.to_string ⟨some [':'], ⟨1⟩, List.replicate 8 0, true⟩) =
      some ⟨none, ⟨0⟩, List.replicate 8 0, false⟩ ∧
    (ByteCounter.mk none ⟨0⟩ (List.replicate 8 0) false).pre ≠ some [':'] := by
  decide

/-- Digit-folding a single character. -/
theorem dval_single (x : Nat) (c : Char) :
    dval x [c] = x * 10 + (c.toNat - 48) := rfl

/-- Folding digits over an appended list splits into two folds. -/
theorem dval_append (a : Nat) (l₁ l₂ : List Char) :
    dval a (l₁ ++ l₂) = dval (dval a l₁) l₂ := by
  induction l₁ generalizing a with
  | nil => rfl
  | cons c cs ih =>
    show dval (a * 10 + (c.toNat - 48)) (cs ++ l₂) =
      dval (dval (a * 10 + (c.toNat - 48)) cs) l₂
    exact ih _

/-- `Nat.digitChar` of a value below ten is an ASCII digit. -/
theorem digitChar_isDigit {d : Nat} (h : d < 10) :
    (Nat.digitChar d).isDigit = true := by
  interval_cases d <;> decide

/-- `Nat.digitChar` of a value below ten has scalar value `48 + d`. -/
theorem digitChar_toNat {d : Nat} (h : d < 10) :
    (Nat.digitChar d).toNat = 48 + d := by
  interval_cases d <;> decide

/-- An ASCII digit is not the plus sign. -/
theorem isDigit_ne_plus {c : Char} (h : c.isDigit = true) : c ≠ '+' := by
  intro hc
  subst hc
  exact absurd h (by decide)

/-- An ASCII digit is not the colon separator. -/
theorem isDigit_ne_colon {c : Char} (h : c.isDigit = true) : c ≠ ':' := by
  intro hc
  subst hc
  exact absurd h (by decide)

/-- The accumulator of `natToCharsAux` is a suffix that can be split off. -/
theorem natToCharsAux_append (fuel : Nat) :
    ∀ n acc, natToCharsAux fuel n acc = natToCharsAux fuel n [] ++ acc := by
  induction fuel with
  | zero => intro n acc; rfl
  | succ f ih =>
    intro n acc
    by_cases h : n < 10
    · simp [natToCharsAux, h]
    · simp only [natToCharsAux, h, if_false]
      rw [ih (n / 10) (Nat.digitChar (n % 10) :: acc),
        ih (n / 10) [Nat.digitChar (n % 10)]]
      simp

/-- `natToCharsAux` does not depend on the fuel once it is sufficient. -/
theorem natToCharsAux_fuel (n : Nat) :
    ∀ f₁ f₂, n < f₁ → n < f₂ →
      natToCharsAux f₁ n [] = natToCharsAux f₂ n [] := by
  induction n using Nat.strong_induction_on with
  | _ n ih =>
    intro f₁ f₂ h₁ h₂
    obtain ⟨g₁, rfl⟩ : ∃ k, f₁ = k + 1 := ⟨f₁ - 1, by omega⟩
    obtain ⟨g₂, rfl⟩ : ∃ k, f₂ = k + 1 := ⟨f₂ - 1, by omega⟩
    by_cases h : n < 10
    · simp [natToCharsAux, h]
    · simp only [natToCharsAux, h, if_false]
      rw [natToCharsAux_append g₁, natToCharsAux_append g₂]
      have hdiv : n / 10 < n := Nat.div_lt_self (by omega) (by omega)
      rw [ih (n / 10) hdiv g₁ g₂ (by omega) (by omega)]

/-- Rendering of a single-digit number. -/
theorem natToChars_small {n : Nat} (h : n < 10) :
    natToChars n = [Nat.digitChar n] := by
  simp [natToChars, natToCharsAux, h]

/-- Rendering of a multi-digit number peels off the last digit. -/
theorem natToChars_step {n : Nat} (h : 10 ≤ n) :
    natToChars n = natToChars (n / 10) ++ [Nat.digitChar (n % 10)] := by
  have h10 : ¬ n < 10 := by omega
  have hdiv : n / 10 < n := Nat.div_lt_self (by omega) (by omega)
  have e1 : natToChars n = natToCharsAux n (n / 10) [Nat.digitChar (n % 10)] := by
    show natToCharsAux (n + 1) n [] = _
    simp only [natToCharsAux, h10, if_false]
  rw [e1, natToCharsAux_append n,
    natToCharsAux_fuel (n / 10) n (n / 10 + 1) hdiv (by omega)]
  rfl

/-- A rendered number is never the empty string. -/
theorem natToChars_ne_nil (n : Nat) : natToChars n ≠ [] := by
  by_cases h : n < 10
  · simp [natToChars_small h]
  · simp [natToChars_step (by omega : 10 ≤ n)]

/-- Every character of a rendered number is an ASCII digit. -/
theorem natToChars_all_digits (n : Nat) :
    (natToChars n).all Char.isDigit = true := by
  induction n using Nat.strong_induction_on with
  | _ n ih =>
    by_cases h : n < 10
    · simp [natToChars_small h, digitChar_isDigit h]
    · have hdiv : n / 10 < n := Nat.div_lt_self (by omega) (by omega)
      have hmod : n % 10 < 10 := Nat.mod_lt n (by omega)
      simp [natToChars_step (by omega : 10 ≤ n), List.all_append,
        ih (n / 10) hdiv, digitChar_isDigit hmod]

/-- Digit-folding a rendered number recovers it (with the accumulator
shifted by the rendered length). -/
theorem dval_natToChars (n : Nat) :
    ∀ a, dval a (natToChars n) = a * 10 ^ (natToChars n).length + n := by
  induction n using Nat.strong_induction_on with
  | _ n ih =>
    intro a
    by_cases h : n < 10
    · rw [natToChars_small h]
      show a * 10 + ((Nat.digitChar n).toNat - 48) = a * 10 ^ 1 + n
      rw [digitChar_toNat h, pow_one]
      omega
    · have hdiv : n / 10 < n := Nat.div_lt_self (by omega) (by omega)
      have hmod : n % 10 < 10 := Nat.mod_lt n (by omega)
      rw [natToChars_step (by omega : 10 ≤ n), dval_append, ih (n / 10) hdiv a,
        dval_single, digitChar_toNat hmod, List.length_append]
      simp only [List.length_cons, List.length_nil, pow_succ, pow_zero]
      have h48 : 48 + n % 10 - 48 = n % 10 := by omega
      rw [h48]
      have hdm : 10 * (n / 10) + n % 10 = n := Nat.div_add_mod n 10
      set M := 10 ^ (natToChars (n / 10)).length with hM
      calc (a * M + n / 10) * 10 + n % 10
          = a * (M * 10) + (10 * (n / 10) + n % 10) := by ring
        _ = a * (M * 10) + n := by rw [hdm]

/-- Digit-folding a rendered number from the zero accumulator
recovers the number. -/
theorem dval_natToChars_zero (n : Nat) : dval 0 (natToChars n) = n := by
  simpa using dval_natToChars n 0

/-- A list of ASCII digits is unchanged by `stripPlus`. -/
theorem stripPlus_of_digits {l : List Char} (hne : l ≠ [])
    (hd : l.all Char.isDigit = true) : stripPlus l = l := by
  cases l with
  | nil => exact absurd rfl hne
  | cons c cs =>
    have hc : c.isDigit = true := by
      rw [List.all_cons, Bool.and_eq_true] at hd
      exact hd.1
    simp [stripPlus, isDigit_ne_plus hc]

/-- Parsing a rendered number within range recovers it, as Rust's
`"{}".parse::<u64>()` does on its own output. -/
theorem parseNat?_natToChars {n maxVal : Nat} (h : n ≤ maxVal) :
    parseNat? maxVal (natToChars n) = some n := by
  have hne := natToChars_ne_nil n
  have hdig := natToChars_all_digits n
  have hstrip := stripPlus_of_digits hne hdig
  have hval := dval_natToChars_zero n
  simp only [parseNat?, hstrip, hne, hdig, hval, h, ne_eq,
    not_false_eq_true, and_self, if_true, if_pos]

/-- Length of single-digit renderings. -/
theorem natToChars_length_one {n : Nat} (h : n < 10) :
    (natToChars n).length = 1 := by
  simp [natToChars_small h]

/-- Length of two-digit renderings. -/
theorem natToChars_length_two {n : Nat} (h₁ : 10 ≤ n) (h₂ : n < 100) :
    (natToChars n).length = 2 := by
  rw [natToChars_step h₁]
  have hq : n / 10 < 10 := by omega
  simp [natToChars_length_one hq]

/-- Length of three-digit renderings. -/
theorem natToChars_length_three {n : Nat} (h₁ : 100 ≤ n) (h₂ : n < 1000) :
    (natToChars n).length = 3 := by
  rw [natToChars_step (by omega : 10 ≤ n)]
  have hq₁ : 10 ≤ n / 10 := by omega
  have hq₂ : n / 10 < 100 := by omega
  simp [natToChars_length_two hq₁ hq₂]

/-- Every encoded byte group is exactly three characters long. -/
theorem encodeByte_length {b : Nat} (h : b < 256) :
    (encodeByte b).length = 3 := by
  by_cases h1 : b < 10
  · simp [encodeByte, h1, natToChars_length_one h1]
  · by_cases h2 : b < 100
    · simp [encodeByte, h1, h2, natToChars_length_two (by omega) h2]
    · simp [encodeByte, h1, h2,
        natToChars_length_three (n := b) (by omega) (by omega)]

/-- Every character of an encoded byte group is an ASCII digit. -/
theorem encodeByte_all_digits {b : Nat} (h : b < 256) :
    (encodeByte b).all Char.isDigit = true := by
  have h0 : Char.isDigit '0' = true := by decide
  by_cases h1 : b < 10
  · simp [encodeByte, h1, h0, natToChars_all_digits]
  · by_cases h2 : b < 100
    · simp [encodeByte, h1, h2, h0, natToChars_all_digits]
    · simp [encodeByte, h1, h2, natToChars_all_digits]

/-- A leading zero character does not change the folded digit value. -/
theorem dval_cons_zero (l : List Char) : dval 0 ('0' :: l) = dval 0 l := by
  have h : dval 0 ('0' :: l) = dval (0 * 10 + (('0').toNat - 48)) l := rfl
  have h2 : 0 * 10 + (('0').toNat - 48) = 0 := by decide
  rw [h, h2]

/-- Digit-folding an encoded byte group recovers the byte. -/
theorem dval_encodeByte {b : Nat} (h : b < 256) :
    dval 0 (encodeByte b) = b := by
  by_cases h1 : b < 10
  · simp only [encodeByte, h1, if_pos]
    rw [dval_cons_zero, dval_cons_zero, dval_natToChars_zero]
  · by_cases h2 : b < 100
    · simp only [encodeByte, h1, h2, if_false, if_pos]
      rw [dval_cons_zero, dval_natToChars_zero]
    · simp only [encodeByte, h1, h2, if_false]
      rw [dval_natToChars_zero]

/-- Parsing an encoded byte group as a `u8` recovers the byte. -/
theorem parseNat?_encodeByte {b : Nat} (h : b < 256) :
    parseNat? 255 (encodeByte b) = some b := by
  have hd := encodeByte_all_digits h
  have hne : encodeByte b ≠ [] := by
    intro hc
    have hl := encodeByte_length h
    rw [hc] at hl
    simp at hl
  have hstrip := stripPlus_of_digits hne hd
  have hv := dval_encodeByte h
  have hle : b ≤ 255 := by omega
  simp only [parseNat?, hstrip, hne, hd, hv, hle, ne_eq,
    not_false_eq_true, and_self, if_true, if_pos]

/-- `split(':')` never produces an empty part list. -/
theorem splitCh_ne_nil (l : List Char) : splitCh l ≠ [] := by
  cases l with
  | nil => simp [splitCh]
  | cons c rest =>
    by_cases h : c = ':'
    · simp [splitCh, h]
    · simp only [splitCh, h, if_false]
      cases hs : splitCh rest with
      | nil => simp
      | cons p ps => simp

/-- A colon-free string splits into a single part. -/
theorem splitCh_no_colon {l : List Char} (h : ':' ∉ l) : splitCh l = [l] := by
  induction l with
  | nil => rfl
  | cons c rest ih =>
    have hc : ¬ c = ':' := by
      intro hcc
      exact h (by simp [hcc])
    have hr : ':' ∉ rest := fun hm => h (List.mem_cons_of_mem _ hm)
    simp only [splitCh, hc, if_false]
    rw [ih hr]

/-- Splitting strips a colon-free leading part before the first colon. -/
theorem splitCh_append {p : List Char} (h : ':' ∉ p) (r : List Char) :
    splitCh (p ++ ':' :: r) = p :: splitCh r := by
  induction p with
  | nil => simp [splitCh]
  | cons c cs ih =>
    have hc : ¬ c = ':' := by
      intro hcc
      exact h (by simp [hcc])
    have hcs : ':' ∉ cs := fun hm => h (List.mem_cons_of_mem _ hm)
    simp only [List.cons_append, splitCh, hc, if_false, List.append_eq]
    rw [ih hcs]

/-- Chunking the concatenation of three-character groups recovers the
groups. -/
theorem chunks3_flatten {gs : List (List Char)} (h : ∀ g ∈ gs, g.length = 3) :
    chunks3 gs.flatten = gs := by
  induction gs with
  | nil => rfl
  | cons g rest ih =>
    have hg : g.length = 3 := h g (by simp)
    obtain ⟨a, b, c, rfl⟩ := List.length_eq_three.mp hg
    have hr : ∀ x ∈ rest, x.length = 3 := fun x hx => h x (by simp [hx])
    show chunks3 (a :: b :: c :: rest.flatten) = _
    rw [show chunks3 (a :: b :: c :: rest.flatten) =
      [a, b, c] :: chunks3 rest.flatten from rfl]
    rw [ih hr]

/-- Mapping an option-valued inverse over an encoding recovers the
original list. -/
theorem mapOpt_map_roundtrip {f : γ → Option α} {g : α → γ} {l : List α}
    (h : ∀ b ∈ l, f (g b) = some b) : mapOpt f (l.map g) = some l := by
  induction l with
  | nil => rfl
  | cons b rest ih =>
    simp only [List.map_cons, mapOpt, h b (by simp)]
    rw [ih (fun x hx => h x (by simp [hx]))]
    rfl

/-- If any element fails, the option-valued map fails. -/
theorem mapOpt_eq_none {f : α → Option β} {l : List α} {x : α}
    (hx : x ∈ l) (hf : f x = none) : mapOpt f l = none := by
  induction l with
  | nil => cases hx
  | cons a rest ih =>
    rcases List.mem_cons.mp hx with h | h
    · subst h
      simp [mapOpt, hf]
    · simp only [mapOpt]
      cases hfa : f a with
      | none => rfl
      | some b => rw [ih h]; rfl

/-- The segment of a `w`-byte counter is `3·w` characters long. -/
theorem seg_length {id : List Nat} (h : ∀ b ∈ id, b < 256) :
    ((id.map encodeByte).flatten).length = 3 * id.length := by
  induction id with
  | nil => rfl
  | cons b rest ih =>
    simp only [List.map_cons, List.flatten_cons, List.length_append,
      List.length_cons]
    rw [encodeByte_length (h b (by simp)), ih (fun x hx => h x (by simp [hx]))]
    ring

/-- Decoding the rendered segment of a `w`-byte value recovers the
bytes: alignment leaves the `3·w`-character segment unchanged, chunking
recovers the groups, and each group parses back to its byte. -/
theorem decodeGroups_encode {w : Nat} {id : List Nat}
    (hlen : id.length = w) (hb : ∀ b ∈ id, b < 256) :
    decodeGroups w ((id.map encodeByte).flatten) = some id := by
  have hsl : ((id.map encodeByte).flatten).length = 3 * w := by
    rw [seg_length hb, hlen]
  have h3 : 3 * w / 3 = w := by omega
  have halign : alignW w ((id.map encodeByte).flatten) =
      (id.map encodeByte).flatten := by
    simp [alignW, hsl, h3]
  have hch : chunks3 ((id.map encodeByte).flatten) = id.map encodeByte := by
    apply chunks3_flatten
    intro g hg
    obtain ⟨b, hbmem, rfl⟩ := List.mem_map.mp hg
    exact encodeByte_length (hb b hbmem)
  unfold decodeGroups
  rw [halign, hch,
    mapOpt_map_roundtrip (fun b hbb => parseNat?_encodeByte (hb b hbb))]
  simp [hlen]

/-- Reduction of `fromString` on an input splitting into two parts. -/
theorem fromString_two_parts (now : Nat) {s t i : List Char}
    (h : splitCh s = [t, i]) :
    ByteCounter.fromString now s =
      (ByteCounter.decode_bytes now i).map fun obj =>
        let ts := timestampFrom t
        { obj with timestamp := ts,
                   valid := if ts.val = 0 then false else obj.valid } := by
  unfold ByteCounter.fromString
  rw [h]

/-- Reduction of `fromString` on an input splitting into three parts. -/
theorem fromString_three_parts (now : Nat) {s p t i : List Char}
    (h : splitCh s = [p, t, i]) :
    ByteCounter.fromString now s =
      (ByteCounter.decode_bytes now i).map fun obj =>
        let ts := timestampFrom t
        { obj with pre := some p, timestamp := ts,
                   valid := if ts.val = 0 then false else obj.valid } := by
  unfold ByteCounter.fromString
  rw [h]

/-- Successful byte decoding of an encoded 8-byte segment. -/
theorem decode_bytes_encode (now : Nat) {id : List Nat}
    (hlen : id.length = 8) (hb : ∀ b ∈ id, b < 256) :
    ByteCounter.decode_bytes now ((id.map encodeByte).flatten) =
      some ⟨none, ⟨now⟩, id, true⟩ := by
  unfold ByteCounter.decode_bytes
  rw [show IDENTIFIER_SIZE = 8 from rfl, decodeGroups_encode hlen hb]
  rfl

/-- No character of an encoded segment is a colon. -/
theorem seg_no_colon {id : List Nat} (hb : ∀ b ∈ id, b < 256) :
    ':' ∉ (id.map encodeByte).flatten := by
  intro hm
  obtain ⟨g, hg, hcg⟩ := List.mem_flatten.mp hm
  obtain ⟨b, hbm, rfl⟩ := List.mem_map.mp hg
  have hd := encodeByte_all_digits (hb b hbm)
  have : Char.isDigit ':' = true := List.all_eq_true.mp hd ':' hcg
  exact absurd this (by decide)

/-- No character of a rendered number is a colon. -/
theorem natToChars_no_colon (n : Nat) : ':' ∉ natToChars n := by
  intro hm
  have hd := natToChars_all_digits n
  have : Char.isDigit ':' = true := List.all_eq_true.mp hd ':' hm
  exact absurd this (by decide)

/-- Parsing back a rendered in-range timestamp recovers it. -/
theorem timestampFrom_natToChars {v : Nat} (h : v ≤ U64MAX) :
    timestampFrom (natToChars v) = ⟨v⟩ := by
  unfold timestampFrom
  rw [parseNat?_natToChars h]
  rfl

/-- Claim C3 (amended): for every programmatically constructed counter
whose prefix, when present, contains no `:` character (and whose `u64`
timestamp is in range), decoding the canonical text encoding yields a
counter with the same byte array, the same prefix and the timestamp
parsed from the text (the counter's own timestamp, not the fresh clock
reading `now'`); its validity flag is true unless the timestamp is 0. -/
theorem c3_roundtrip (now' : Nat) (c : ByteCounter)
    (hlen : c.id.length = 8) (hb : ∀ b ∈ c.id, b < 256)
    (hts : c.timestamp.val ≤ U64MAX)
    (hpre : ∀ p, c.pre = some p → ':' ∉ p) :
    ByteCounter.fromString now' c.to_string =
      some ⟨c.pre, c.timestamp, c.id,
        if c.timestamp.val = 0 then false else true⟩ := by
  have hdec := decode_bytes_encode now' hlen hb
  have hsegnc := seg_no_colon hb
  have htsnc := natToChars_no_colon c.timestamp.val
  have htsp := timestampFrom_natToChars hts
  cases hp : c.pre with
  | none =>
    have hts_eq : ByteCounter.to_string c =
        natToChars c.timestamp.val ++ ':' :: (c.id.map encodeByte).flatten := by
      unfold ByteCounter.to_string
      rw [hp]
    have hsplit : splitCh (ByteCounter.to_string c) =
        [natToChars c.timestamp.val, (c.id.map encodeByte).flatten] := by
      rw [hts_eq, splitCh_append htsnc, splitCh_no_colon hsegnc]
    rw [fromString_two_parts now' hsplit, hdec, Option.map_some']
    dsimp only
    rw [htsp]
  | some p =>
    have hpnc : ':' ∉ p := hpre p hp
    have hts_eq : ByteCounter.to_string c =
        p ++ ':' :: (natToChars c.timestamp.val ++ ':' ::
          (c.id.map encodeByte).flatten) := by
      unfold ByteCounter.to_string
      rw [hp]
    have hsplit : splitCh (ByteCounter.to_string c) =
        [p, natToChars c.timestamp.val, (c.id.map encodeByte).flatten] := by
      rw [hts_eq, splitCh_append hpnc, splitCh_append htsnc,
        splitCh_no_colon hsegnc]
    rw [fromString_three_parts now' hsplit, hdec, Option.map_some']
    dsimp only
    rw [htsp]

/-- Witness for `c3_roundtrip` at a concrete prefixed counter. -/
theorem c3_roundtrip_witness :
    ByteCounter.fromString 11
      (ByteCounter.to_string ⟨some ['s'], ⟨42⟩, [0, 0, 0, 0, 0, 0, 0, 7], true⟩) =
      some ⟨some ['s'], ⟨42⟩, [0, 0, 0, 0, 0, 0, 0, 7], true⟩ :=
  c3_roundtrip 11 ⟨some ['s'], ⟨42⟩, [0, 0, 0, 0, 0, 0, 0, 7], true⟩
    (by decide) (by decide) (by decide)
    (by intro p hp; injection hp with h; subst h; decide)

/-- Claim C7 (amended): a group of the padded/truncated segment that
fails Rust `u8` parsing — i.e. that is not an optional leading `+`
followed by ASCII digits denoting a value at most 255 — makes segment
decoding abort the process.  (The claim's broader wording is refuted by
`c7_counterexample`: a group containing the non-digit `+` in leading
position can still parse.) -/
theorem c7_bad_group_aborts (now : Nat) (s : List Char)
    (h : ∃ g ∈ chunks3 (alignW IDENTIFIER_SIZE s), parseNat? 255 g = none) :
    ByteCounter.decode_bytes now s = none := by
  obtain ⟨g, hg, hgp⟩ := h
  unfold ByteCounter.decode_bytes decodeGroups
  rw [mapOpt_eq_none hg hgp]
  rfl

/-- Witness for `c7_bad_group_aborts`: the out-of-range group `999`
aborts the decode. -/
theorem c7_bad_group_aborts_witness :
    ByteCounter.decode_bytes 0 ('9' :: '9' :: '9' :: List.replicate 21 '0') =
      none :=
  c7_bad_group_aborts 0 ('9' :: '9' :: '9' :: List.replicate 21 '0')
    ⟨['9', '9', '9'], by decide, by decide⟩

/-- Claim C8: an input whose `:`-split does not match a supported shape
decodes softly to the all-zero invalid value, with no abort: for
`ByteCounter` any part count other than 2 or 3, for `BigID` any part
count other than 1 or 2. -/
theorem c8_bad_part_count_soft (now : Nat) (s : List Char) :
    ((splitCh s).length ≠ 2 → (splitCh s).length ≠ 3 →
      ByteCounter.fromString now s =
        some ⟨none, ⟨now⟩, List.replicate IDENTIFIER_SIZE 0, false⟩) ∧
    ((splitCh s).length ≠ 1 → (splitCh s).length ≠ 2 →
      BigID.fromStr s =
        some ⟨List.replicate BigID.IDENTIFIER_SIZE 0, none, false⟩) := by
  constructor
  · intro h2 h3
    unfold ByteCounter.fromString
    rcases hs : splitCh s with _ | ⟨a, tail⟩
    · rfl
    · rcases tail with _ | ⟨b, tail2⟩
      · rfl
      · rcases tail2 with _ | ⟨c, tail3⟩
        · exact absurd (by simp [hs] : (splitCh s).length = 2) h2
        · rcases tail3 with _ | ⟨d, rest⟩
          · exact absurd (by simp [hs] : (splitCh s).length = 3) h3
          · rfl
  · intro h1 h2
    unfold BigID.fromStr
    rcases hs : splitCh s with _ | ⟨a, tail⟩
    · rfl
    · rcases tail with _ | ⟨b, tail2⟩
      · exact absurd (by simp [hs] : (splitCh s).length = 1) h1
      · rcases tail2 with _ | ⟨c, tail3⟩
        · exact absurd (by simp [hs] : (splitCh s).length = 2) h2
        · rfl

/-- Witness for `c8_bad_part_count_soft` on a four-part input. -/
theorem c8_bad_part_count_soft_witness :
    ByteCounter.fromString 5 ['a', ':', 'b', ':', 'c', ':', 'd'] =
      some ⟨none, ⟨5⟩, List.replicate IDENTIFIER_SIZE 0, false⟩ ∧
    BigID.fromStr ['a', ':', 'b', ':', 'c', ':', 'd'] =
      some ⟨List.replicate BigID.IDENTIFIER_SIZE 0, none, false⟩ :=
  ⟨(c8_bad_part_count_soft 5 ['a', ':', 'b', ':', 'c', ':', 'd']).1
      (by decide) (by decide),
   (c8_bad_part_count_soft 5 ['a', ':', 'b', ':', 'c', ':', 'd']).2
      (by decide) (by decide)⟩

/-- `cmpNat` is reflexive at `.eq`. -/
theorem cmpNat_self (x : Nat) : cmpNat x x = .eq := by
  simp [cmpNat]

/-- `cmpChar` is reflexive at `.eq`. -/
theorem cmpChar_self (c : Char) : cmpChar c c = .eq :=
  cmpNat_self c.toNat

/-- Pointwise-reflexive list comparison is reflexive at `.eq`. -/
theorem cmpList_self {cmp : α → α → Ordering} (h : ∀ x, cmp x x = .eq) :
    ∀ l, cmpList cmp l l = .eq := by
  intro l
  induction l with
  | nil => rfl
  | cons x xs ih =>
    show (match cmp x x with
      | .eq => cmpList cmp xs xs
      | o => o) = .eq
    rw [h x, ih]

/-- Pointwise-reflexive option comparison is reflexive at `.eq`. -/
theorem cmpOpt_self {cmp : α → α → Ordering} (h : ∀ x, cmp x x = .eq) :
    ∀ o, cmpOpt cmp o o = .eq := by
  intro o
  cases o with
  | none => rfl
  | some x => exact h x

/-- Claim C9 (amended): the `valid` flag does participate in the
derived equality and ordering, as the last-compared field: two counters
agreeing on prefix, timestamp and bytes but differing in `valid` are
unequal, and the `valid = false` one orders strictly first. -/
theorem c9_valid_in_eq_and_ord (a b : ByteCounter)
    (hp : a.pre = b.pre) (ht : a.timestamp = b.timestamp) (hi : a.id = b.id)
    (hva : a.valid = false) (hvb : b.valid = true) :
    a ≠ b ∧ ByteCounter.cmp a b = .lt := by
  constructor
  · intro he
    rw [he] at hva
    rw [hva] at hvb
    exact Bool.false_ne_true hvb
  · unfold ByteCounter.cmp
    rw [hp, ht, hi, hva, hvb]
    rw [cmpOpt_self (cmpList_self cmpChar_self) b.pre,
      cmpNat_self, cmpList_self cmpNat_self]
    rfl

/-- Witness for `c9_valid_in_eq_and_ord` at a concrete pair. -/
theorem c9_valid_in_eq_and_ord_witness :
    (ByteCounter.mk none ⟨3⟩ [0, 0, 0, 0, 0, 0, 0, 9] false ≠
      ByteCounter.mk none ⟨3⟩ [0, 0, 0, 0, 0, 0, 0, 9] true) ∧
    ByteCounter.cmp ⟨none, ⟨3⟩, [0, 0, 0, 0, 0, 0, 0, 9], false⟩
      ⟨none, ⟨3⟩, [0, 0, 0, 0, 0, 0, 0, 9], true⟩ = .lt :=
  c9_valid_in_eq_and_ord _ _ rfl rfl rfl rfl rfl

/-- A successful `decode_bytes` always sets `valid = true`. -/
theorem decode_bytes_valid {now : Nat} {i : List Char} {obj : ByteCounter}
    (h : ByteCounter.decode_bytes now i = some obj) : obj.valid = true := by
  unfold ByteCounter.decode_bytes at h
  cases hd : decodeGroups IDENTIFIER_SIZE i with
  | none => rw [hd] at h; cases h
  | some bytes =>
    rw [hd, Option.map_some'] at h
    cases h
    rfl

/-- Claim C10 (amended): for a 2- or 3-part input whose segment decodes,
the decoded counter has `valid = false` exactly when the timestamp
field parses to the numeric value 0 — via Rust `u64` parsing with
unparseable fields mapped to 0, so the literals `"0"`, `"00"`, `"+0"`
and any unparseable field all give `valid = false` — and `valid = true`
otherwise. -/
theorem c10_valid_iff_ts_zero (now : Nat) (s t i : List Char)
    (c : ByteCounter)
    (hshape : splitCh s = [t, i] ∨ ∃ p, splitCh s = [p, t, i])
    (hdec : ByteCounter.fromString now s = some c) :
    (c.valid = false ↔ (timestampFrom t).val = 0) := by
  rcases hshape with h2 | ⟨p, h3⟩
  · rw [fromString_two_parts now h2] at hdec
    cases hd : ByteCounter.decode_bytes now i with
    | none => rw [hd] at hdec; cases hdec
    | some obj =>
      have hov := decode_bytes_valid hd
      rw [hd, Option.map_some'] at hdec
      cases hdec
      dsimp only
      by_cases hz : (timestampFrom t).val = 0
      · simp [hz]
      · simp [hz, hov]
  · rw [fromString_three_parts now h3] at hdec
    cases hd : ByteCounter.decode_bytes now i with
    | none => rw [hd] at hdec; cases hdec
    | some obj =>
      have hov := decode_bytes_valid hd
      rw [hd, Option.map_some'] at hdec
      cases hdec
      dsimp only
      by_cases hz : (timestampFrom t).val = 0
      · simp [hz]
      · simp [hz, hov]

/-- Witness for `c10_valid_iff_ts_zero` on the input `"5:<24 zeros>"`. -/
theorem c10_valid_iff_ts_zero_witness :
    ((ByteCounter.mk none ⟨5⟩ (List.replicate 8 0) true).valid = false ↔
      (timestampFrom ['5']).val = 0) :=
  c10_valid_iff_ts_zero 9 ('5' :: ':' :: List.replicate 24 '0') ['5']
    (List.replicate 24 '0') ⟨none, ⟨5⟩, List.replicate 8 0, true⟩
    (Or.inl (by decide)) (by decide)
